import Mathlib

/-!
Verification development for the fhir-py client library.

The definitions below are shallow embeddings of the python sources:
`fhirpy/base/searchset.py`, `fhirpy/base/lib_sync.py`, `fhirpy/base/lib.py`
(the legacy combined module), `fhirpy/base/resource.py`,
`fhirpy/base/client.py`, `fhirpy/base/utils.py` and `fhirpy/lib.py`
(the historical schema-based client).  Python dicts that preserve insertion
order become association lists, machine integers become Int, fallible code
returns Except, and the transport adapter is an explicit oracle function.
-/

/-- Scalar parameter values as they occur in search params: strings,
integers and booleans.  Dates and resource objects accepted by
transform_value are outside this model. -/
inductive PVal where
  | s (v : String)
  | n (v : Int)
  | b (v : Bool)
deriving DecidableEq

/-- str() of a scalar value, as applied by urlencode before quoting. -/
def pvalStr : PVal → String
  | .s v => v
  | .n v => toString v
  | .b v => if v then "True" else "False"

/-- transform_value (searchset.py 39-58) restricted to the scalars the
model carries: booleans become the strings true and false, the rest pass
through. -/
def transformValue : PVal → PVal
  | .b v => .s (if v then "true" else "false")
  | v => v

/-- The parameter multimap: an insertion-ordered association list from
parameter name to value list, modelling defaultdict(list). -/
abbrev Params := List (String × List PVal)

deriving instance DecidableEq for Except

/-- Lookup of a key in the multimap (first occurrence, as in a dict). -/
def lookupParams : Params → String → Option (List PVal)
  | [], _ => none
  | kv :: tl, k => if kv.1 = k then some kv.2 else lookupParams tl k

/-- defaultdict append semantics: extend the list at the key in place,
inserting the key at the end when absent. -/
def extendParam : Params → String → List PVal → Params
  | [], k, vs => [(k, vs)]
  | kv :: tl, k, vs =>
    if kv.1 = k then (kv.1, kv.2 ++ vs) :: tl else kv :: extendParam tl k vs

/-- dict assignment semantics: replace the value at the key keeping its
insertion position, inserting at the end when absent. -/
def setParam : Params → String → List PVal → Params
  | [], k, vs => [(k, vs)]
  | kv :: tl, k, vs =>
    if kv.1 = k then (kv.1, vs) :: tl else kv :: setParam tl k vs

/-- A resource as wire data: its resourceType, optional id and the
remaining fields. -/
structure ResourceData where
  resourceType : String
  id : Option String
  fields : List (String × String)
deriving DecidableEq

/-- Python truthiness of the id value: present and non-empty. -/
def truthyId : Option String → Bool
  | none => false
  | some v => v ≠ ""

/-- BaseResource.reference (resource.py 184-192): the Type/id string when
the id is present, otherwise None. -/
def ResourceData.reference (r : ResourceData) : Option String :=
  if truthyId r.id then some (r.resourceType ++ "/" ++ r.id.getD "") else none

/-- The failure taxonomy raised by the embedded operations. -/
inductive FhirError where
  | resourceNotFound
  | multipleResourcesFound
  | invalidResponse
  | immutableField
  | typeError
  | valueError
  | indexError
deriving DecidableEq

/-- One Bundle entry, carrying a resource. -/
structure BundleEntry where
  resource : ResourceData
deriving DecidableEq

/-- One Bundle link, used for pagination. -/
structure LinkEntry where
  relation : String
  url : String
deriving DecidableEq

/-- The wire-level Bundle shape consumed by fetch. -/
structure BundleData where
  resourceType : String
  entry : List BundleEntry
  link : List LinkEntry
deriving DecidableEq

/-- One request to the transport adapter: _fetch_resource(path, params). -/
structure FetchReq where
  path : String
  params : Option Params
deriving DecidableEq

/-- An immutable SearchSet value: resource type plus parameter multimap. -/
structure SearchSetP where
  resourceType : String
  params : Params
deriving DecidableEq

/-- AbstractSearchSet.clone (searchset.py 247-262) seen as a pure value
transform: the deep-copy-then-mutate behaviour on the python heap is
modelled separately below for the aliasing claim. -/
def cloneP (s : SearchSetP) (override : Bool) (kwargs : List (String × List PVal)) : SearchSetP :=
  ⟨s.resourceType,
    kwargs.foldl
      (fun acc kv => if override then setParam acc kv.1 kv.2 else extendParam acc kv.1 kv.2)
      s.params⟩

/-- AbstractSearchSet.limit: clone with _count overridden. -/
def limitP (s : SearchSetP) (n : Int) : SearchSetP :=
  cloneP s true [("_count", [.n n])]

/-- Legacy AbstractSearchSet.page (base/lib.py 399-400): clone with the
page parameter overridden. -/
def pageP (s : SearchSetP) (n : Int) : SearchSetP :=
  cloneP s true [("page", [.n n])]

/-- AbstractSearchSet._get_bundle_resources (searchset.py 355-368): reject
responses that are not a Bundle, unwrap the entries, and keep only the
resources of the declared type. -/
def getBundleResources (rt : String) (b : BundleData) : Except FhirError (List ResourceData) :=
  if b.resourceType ≠ "Bundle" then .error .invalidResponse
  else .ok ((b.entry.map (fun e => e.resource)).filter (fun r => r.resourceType == rt))

/-- SyncSearchSet.fetch (lib_sync.py 385-388): one page request against
the transport adapter, then Bundle unwrapping. -/
def fetchP (server : FetchReq → BundleData) (s : SearchSetP) : Except FhirError (List ResourceData) :=
  getBundleResources s.resourceType (server ⟨s.resourceType, some s.params⟩)

/-- SyncSearchSet.get (lib_sync.py 404-420), without the deprecated id
argument: fetch with the limit forced to 2, then disambiguate by count. -/
def getSS (server : FetchReq → BundleData) (s : SearchSetP) : Except FhirError ResourceData :=
  match fetchP server (limitP s 2) with
  | .error e => .error e
  | .ok resData =>
    if resData.length = 0 then .error .resourceNotFound
    else if resData.length > 1 then .error .multipleResourcesFound
    else .ok (resData.getD 0 ⟨"", none, []⟩)

/-- A one-patient server used to instantiate C1. -/
def oneEntryServer : FetchReq → BundleData :=
  fun _ => ⟨"Bundle", [⟨⟨"Patient", some "p1", []⟩⟩], []⟩

/-- A python object as far as AbstractResource.__eq__ can observe it:
a resource, a reference wrapper (also an AbstractResource instance), or
any non-resource object. -/
inductive PyObject where
  | res (r : ResourceData)
  | ref (reference : String)
  | other
deriving DecidableEq

/-- The reference attribute of a resource-like object: none when the
object is not an AbstractResource instance at all. -/
def refOf : PyObject → Option (Option String)
  | .res r => some r.reference
  | .ref s => some (some s)
  | .other => none

/-- AbstractResource.__eq__ (resource.py 19-20): an isinstance check
followed by comparison of the reference values (None compares equal to
None in python). -/
def resourceLikeEq (a b : PyObject) : Bool :=
  match refOf a, refOf b with
  | some ra, some rb => ra == rb
  | _, _ => false

/-- String-valued dict contents, enough for the resourceType field. -/
abbrev SDict := List (String × String)

/-- dict lookup (first occurrence of the key). -/
def lookupSDict : SDict → String → Option String
  | [], _ => none
  | kv :: tl, k => if kv.1 = k then some kv.2 else lookupSDict tl k

/-- dict assignment: replace in place, or append when the key is new. -/
def setSDict : SDict → String → String → SDict
  | [], k, v => [(k, v)]
  | kv :: tl, k, v =>
    if kv.1 = k then (kv.1, v) :: tl else kv :: setSDict tl k v

/-- The python containment test `key in dict`. -/
def memKeySDict (d : SDict) (k : String) : Bool :=
  (lookupSDict d k).isSome

/-- The dict a resource holds right after construction: the caller fields
with resourceType bound to the constructor argument (both constructor
variants install resourceType through plain dict initialisation, not
through __setitem__). -/
def mkResourceDict (rt : String) (fields : SDict) : SDict :=
  setSDict fields "resourceType" rt

/-- BaseResource.__setitem__ of base/resource.py (lines 97-105): raise
only when assigning a DIFFERENT value to an existing resourceType key. -/
def setItemResourcePy (d : SDict) (k v : String) : Except FhirError SDict :=
  if k = "resourceType" ∧ memKeySDict d k ∧ some v ≠ lookupSDict d k then
    .error .immutableField
  else .ok (setSDict d k v)

/-- BaseResource.__setitem__ of the legacy base/lib.py (lines 698-706):
raise on EVERY assignment to resourceType, same value included. -/
def setItemLibPy (d : SDict) (k v : String) : Except FhirError SDict :=
  if k = "resourceType" then .error .immutableField
  else .ok (setSDict d k v)

/-- python str.split on a single separator character, piece accumulator
held in reverse. -/
def splitCharAux (c : Char) : List Char → List Char → List (List Char)
  | [], acc => [acc.reverse]
  | x :: xs, acc =>
    if x = c then acc.reverse :: splitCharAux c xs []
    else splitCharAux c xs (x :: acc)

/-- python s.split(c): always at least one piece. -/
def pySplitChar (c : Char) (s : String) : List String :=
  (splitCharAux c s.data []).map (fun l => String.mk l)

/-- python s.count(c). -/
def countChar (c : Char) (s : String) : Nat :=
  s.data.count c

/-- FHIRReference.is_local (fhirpy/lib.py 523-532): exactly one slash AND
the part before the slash present in the client schema (the truthiness
test on _get_schema, modelled as membership in the known type list). -/
def isLocalRef (schema : List String) (ref : String) : Bool :=
  if countChar '/' ref ≠ 1 then false
  else schema.contains ((pySplitChar '/' ref).getD 0 "")

/-- FHIRReference.resource_type (fhirpy/lib.py 515-521): the part before
the slash for a local reference, None otherwise. -/
def refResourceType (schema : List String) (ref : String) : Option String :=
  if isLocalRef schema ref then some ((pySplitChar '/' ref).getD 0 "") else none

/-- FHIRReference.id (fhirpy/lib.py 507-513): the part after the first
slash for a local reference, None otherwise. -/
def refId (schema : List String) (ref : String) : Option String :=
  if isLocalRef schema ref then some ((pySplitChar '/' ref).getD 1 "") else none

/-- FHIRReference.to_resource (fhirpy/lib.py 480-495): a non-local
reference always fails with ResourceNotFound; a local one consults the
cache unless nocache is set and falls back to a server get.  The cache
and the server round trip are abstract parameters. -/
def refToResource (schema : List String)
    (cache : String → String → Option ResourceData)
    (serverGet : String → String → Except FhirError ResourceData)
    (ref : String) (nocache : Bool) : Except FhirError ResourceData :=
  if ¬ isLocalRef schema ref then .error .resourceNotFound
  else
    let rt := (pySplitChar '/' ref).getD 0 ""
    let rid := (pySplitChar '/' ref).getD 1 ""
    match cache rt rid with
    | some r => if ¬ nocache then .ok r else serverGet rt rid
    | none => serverGet rt rid

/-- SyncReference.to_resource (base/lib.py 873-882): a non-local reference
fails; a local one resolves through search(id=...).get(), abstracted as a
resolver oracle. -/
def syncRefToResource (schema : List String)
    (resolve : String → String → Except FhirError ResourceData)
    (ref : String) : Except FhirError ResourceData :=
  if ¬ isLocalRef schema ref then .error .resourceNotFound
  else resolve ((pySplitChar '/' ref).getD 0 "") ((pySplitChar '/' ref).getD 1 "")

/-- Python substring containment: the `in` operator on str. -/
def strContains (hay needle : String) : Bool :=
  (List.range (hay.data.length + 1)).any
    (fun i => needle.data.isPrefixOf (hay.data.drop i))

/-- Models yarl URL(s).is_absolute() for the http(s) URLs this client
handles: absolute when a scheme-and-host separator is present. -/
def isAbsoluteUrl (s : String) : Bool :=
  strContains s "://"

/-- urllib parse_qs restricted to plain key=value pieces (percent
decoding is not modelled; pagination links in the scenarios are plain). -/
def parseQs (q : String) : Params :=
  (pySplitChar '&' q).foldl
    (fun acc piece =>
      match pySplitChar '=' piece with
      | [k, v] => extendParam acc k [.s v]
      | _ => acc) []

/-- utils.parse_pagination_url (utils.py 70-83): absolute links pass
through with no params, relative links split into path and query params. -/
def parsePaginationUrl (u : String) : String × Option Params :=
  if isAbsoluteUrl u then (u, none)
  else
    match pySplitChar '?' u with
    | [p] => (p, some [])
    | p :: q :: _ => (p, some (parseQs q))
    | [] => (u, some [])

/-- get_by_path(bundle_data, [link, relation=next, url]): the url of the
first link whose relation is next. -/
def findNextLink (b : BundleData) : Option String :=
  (b.link.find? (fun l => l.relation == "next")).map (fun l => l.url)

/-- SyncSearchSet.__iter__ (lib_sync.py 477-491): fetch the first page
with the search params, then repeatedly follow the next link while one is
present; stop as soon as a page carries no next link.  The fuel bounds
the while loop; the second result component counts page requests. -/
def iterSyncPages (server : FetchReq → BundleData) (rt : String) (params : Params) :
    Nat → Option String → Except FhirError (List ResourceData × Nat)
  | 0, _ => .ok ([], 0)
  | fuel + 1, nextLink =>
    let req : FetchReq :=
      match nextLink with
      | some u => ⟨(parsePaginationUrl u).1, (parsePaginationUrl u).2⟩
      | none => ⟨rt, some params⟩
    let b := server req
    match getBundleResources rt b with
    | .error e => .error e
    | .ok rs =>
      match findNextLink b with
      | some u =>
        match iterSyncPages server rt params fuel (some u) with
        | .error e => .error e
        | .ok (rest, m) => .ok (rs ++ rest, m + 1)
      | none => .ok (rs, 1)

/-- SyncSearchSet.fetch_all (lib_sync.py 401-402): list(self). -/
def fetchAllSync (server : FetchReq → BundleData) (s : SearchSetP) (fuel : Nat) :
    Except FhirError (List ResourceData × Nat) :=
  iterSyncPages server s.resourceType s.params fuel none

/-- Legacy SyncSearchSet.fetch_all (base/lib.py 451-463): increment the
page parameter starting at 1, fetching until an empty page arrives.  The
fuel bounds the while loop; the second result component counts page
requests. -/
def fetchAllLegacyAux (server : FetchReq → BundleData) (s : SearchSetP) :
    Nat → Nat → Except FhirError (List ResourceData × Nat)
  | 0, _ => .ok ([], 0)
  | fuel + 1, page =>
    match fetchP server (pageP s (Int.ofNat page)) with
    | .error e => .error e
    | .ok [] => .ok ([], 1)
    | .ok rs =>
      match fetchAllLegacyAux server s fuel (page + 1) with
      | .error e => .error e
      | .ok (rest, m) => .ok (rs ++ rest, m + 1)

def fetchAllLegacy (server : FetchReq → BundleData) (s : SearchSetP) (fuel : Nat) :
    Except FhirError (List ResourceData × Nat) :=
  fetchAllLegacyAux server s fuel 1

/-- Patient number i of the pagination scenario. -/
def scenPatient (i : Nat) : ResourceData :=
  ⟨"Patient", some ("p" ++ toString i), []⟩

/-- Bundle entries for patients a, a+1, ..., a+len-1. -/
def scenEntries (a len : Nat) : List BundleEntry :=
  (List.range len).map (fun j => ⟨scenPatient (a + j)⟩)

/-- A server for the [5,5,5,3] scenario advertising next links on the
first three pages; relative next urls p2, p3, p4 address the later
pages. -/
def nextLinkServer : FetchReq → BundleData := fun req =>
  if req.path = "Patient" then ⟨"Bundle", scenEntries 1 5, [⟨"next", "p2"⟩]⟩
  else if req.path = "p2" then ⟨"Bundle", scenEntries 6 5, [⟨"next", "p3"⟩]⟩
  else if req.path = "p3" then ⟨"Bundle", scenEntries 11 5, [⟨"next", "p4"⟩]⟩
  else if req.path = "p4" then ⟨"Bundle", scenEntries 16 3, []⟩
  else ⟨"Bundle", [], []⟩

/-- Page k of the [5,5,5,3] scenario as served by a page-driven server. -/
def pageBundle (k : Int) : BundleData :=
  if k = 1 then ⟨"Bundle", scenEntries 1 5, []⟩
  else if k = 2 then ⟨"Bundle", scenEntries 6 5, []⟩
  else if k = 3 then ⟨"Bundle", scenEntries 11 5, []⟩
  else if k = 4 then ⟨"Bundle", scenEntries 16 3, []⟩
  else ⟨"Bundle", [], []⟩

/-- A server for the [5,5,5,3] scenario addressed by the page parameter;
a request without a page parameter serves page 1 and never carries a
next link. -/
def pageServer : FetchReq → BundleData := fun req =>
  match (match req.params with
         | some p => lookupParams p "page"
         | none => none) with
  | some [.n k] => pageBundle k
  | _ => pageBundle 1

/-- The 18 patients of the pagination scenario. -/
def scenAll18 : List ResourceData :=
  (List.range 18).map (fun j => scenPatient (1 + j))

/-- python split on the two-character separator of SQ keys, greedy left
to right. -/
def splitDunderAux : List Char → List Char → List (List Char)
  | [], acc => [acc.reverse]
  | [x], acc => [acc.reverse ++ [x]]
  | x :: y :: xs, acc =>
    if x = '_' ∧ y = '_' then acc.reverse :: splitDunderAux xs []
    else splitDunderAux (y :: xs) (x :: acc)

/-- python key.split on a double underscore. -/
def pySplitDunder (s : String) : List String :=
  (splitDunderAux s.data []).map (fun l => String.mk l)

/-- The FHIR value-prefix operator set of SQ. -/
def valueOps : List String := ["eq", "ne", "gt", "ge", "lt", "le", "sa", "eb", "ap"]

/-- The FHIR parameter modifier set of SQ. -/
def paramOps : List String :=
  ["contains", "exact", "missing", "not", "below", "above", "in", "not_in", "text", "of_type"]

/-- transform_param (searchset.py 27-36): names starting with an
underscore or a dot are reserved and pass through, otherwise underscores
become hyphens; python raises IndexError on an empty name. -/
def transformParam (param : String) : Except FhirError String :=
  match param.data with
  | [] => .error .indexError
  | c :: _ =>
    if c = '_' ∨ c = '.' then .ok param
    else .ok (String.mk (param.data.map (fun ch => if ch = '_' then '-' else ch)))

/-- The chain-building loop of searchset.SQ (lines 149-155): a part with
a leading capital is a resource-type hop joined with a colon, otherwise a
field hop joined with a dot; python raises IndexError on an empty part. -/
def buildChainNew (p0 : String) (rest : List String) : Except FhirError String :=
  rest.foldlM
    (fun acc part =>
      match part.data with
      | [] => .error .indexError
      | c :: _ => .ok (acc ++ (if c.isUpper then ":" else ".") ++ part)) p0

/-- The operator detection step of searchset.SQ (lines 142-147): strip
the trailing segment whenever it belongs to one of the two sets,
independent of the number of segments. -/
def sqStripNew (keyParts : List String) : Option String × List String :=
  let last := keyParts.getLastD ""
  if valueOps.contains last || paramOps.contains last then (some last, keyParts.dropLast)
  else (none, keyParts)

/-- Per-key processing of searchset.SQ (lines 136-162). -/
def sqKeyNew (key : String) (value : List PVal) : Except FhirError (String × List PVal) :=
  let value := value.map transformValue
  match sqStripNew (pySplitDunder key) with
  | (op?, keyParts) =>
    match keyParts with
    | [] => .error .indexError
    | p0 :: rest =>
      match buildChainNew p0 rest with
      | .error e => .error e
      | .ok param =>
        match op? with
        | some op =>
          if paramOps.contains op then
            match transformParam op with
            | .error e => .error e
            | .ok opT =>
              match transformParam (param ++ ":" ++ opT) with
              | .error e => .error e
              | .ok param2 => .ok (param2, value)
          else
            match transformParam param with
            | .error e => .error e
            | .ok param2 => .ok (param2, value.map (fun v => PVal.s (op ++ pvalStr v)))
        | none =>
          match transformParam param with
          | .error e => .error e
          | .ok param2 => .ok (param2, value)

/-- searchset.SQ over the keyword arguments (Raw positional arguments are
not modelled). -/
def sqNew (kwargs : List (String × List PVal)) : Except FhirError Params :=
  kwargs.foldlM
    (fun res kv => do
      let (param, value) ← sqKeyNew kv.1 kv.2
      return extendParam res param value) []

/-- utils.chunks specialised to size 2. -/
def chunks2 : List String → List (List String)
  | [] => []
  | [x] => [[x]]
  | x :: y :: rest => [x, y] :: chunks2 rest

/-- The operator detection step of the legacy SQ (base/lib.py 225-230):
strip the trailing segment exactly when the number of segments is even. -/
def sqStripLegacy (keyParts : List String) : Option String × List String :=
  if keyParts.length % 2 == 0 then (some (keyParts.getLastD ""), keyParts.dropLast)
  else (none, keyParts)

/-- Per-key processing of the legacy SQ (base/lib.py 219-245): a stripped
candidate outside both sets is silently dropped. -/
def sqKeyLegacy (key : String) (value : List PVal) : Except FhirError (String × List PVal) :=
  let value := value.map transformValue
  match sqStripLegacy (pySplitDunder key) with
  | (op?, keyParts) =>
    match keyParts with
    | [] => .error .indexError
    | base :: chained =>
      let param := String.intercalate ":"
        (base :: (chunks2 chained).map (fun pair => String.intercalate "." pair))
      match op? with
      | some op =>
        if paramOps.contains op then
          match transformParam op with
          | .error e => .error e
          | .ok opT =>
            match transformParam (param ++ ":" ++ opT) with
            | .error e => .error e
            | .ok param2 => .ok (param2, value)
        else if valueOps.contains op then
          match transformParam param with
          | .error e => .error e
          | .ok param2 => .ok (param2, value.map (fun v => PVal.s (op ++ pvalStr v)))
        else
          match transformParam param with
          | .error e => .error e
          | .ok param2 => .ok (param2, value)
      | none =>
        match transformParam param with
        | .error e => .error e
        | .ok param2 => .ok (param2, value)

/-- The legacy SQ over the keyword arguments. -/
def sqLegacy (kwargs : List (String × List PVal)) : Except FhirError Params :=
  kwargs.foldlM
    (fun res kv => do
      let (param, value) ← sqKeyLegacy kv.1 kv.2
      return extendParam res param value) []

/-- The bytes urllib quote never escapes: ALPHA, DIGIT, underscore, dot,
hyphen and tilde. -/
def alwaysSafeByte (b : Nat) : Bool :=
  (65 ≤ b && b ≤ 90) || (97 ≤ b && b ≤ 122) || (48 ≤ b && b ≤ 57)
    || b == 95 || b == 46 || b == 45 || b == 126

/-- Uppercase hex digit. -/
def hexDigitChar (n : Nat) : Char :=
  "0123456789ABCDEF".data.getD n '0'

/-- A percent-escaped byte, uppercase hex as urllib produces. -/
def byteHex (b : Nat) : String :=
  String.mk ['%', hexDigitChar (b / 16 % 16), hexDigitChar (b % 16)]

/-- UTF-8 encoding of one character as byte values. -/
def utf8BytesOfChar (c : Char) : List Nat :=
  let n := c.toNat
  if n < 128 then [n]
  else if n < 2048 then [192 + n / 64, 128 + n % 64]
  else if n < 65536 then [224 + n / 4096, 128 + n / 64 % 64, 128 + n % 64]
  else [240 + n / 262144, 128 + n / 4096 % 64, 128 + n / 64 % 64, 128 + n % 64]

/-- urllib.parse.quote with the given extra safe characters (ASCII). -/
def pyQuote (safe : List Char) (s : String) : String :=
  let safeB := safe.map Char.toNat
  String.join ((s.data.foldr (fun c acc => utf8BytesOfChar c ++ acc) []).map
    (fun b =>
      if alwaysSafeByte b || safeB.contains b then String.mk [Char.ofNat b] else byteHex b))

/-- A parameter value as encode_params receives it: a scalar or a list. -/
inductive ParamIn where
  | one (v : PVal)
  | many (vs : List PVal)
deriving DecidableEq

/-- The raw parameter mapping handed to encode_params. -/
abbrev RawParams := List (String × ParamIn)

/-- utils.unique_everseen (utils.py 34-41): keep the first occurrence of
each value, in first-seen order. -/
def uniqueEverseen (l : List PVal) : List PVal :=
  l.foldl (fun acc x => if acc.contains x then acc else acc ++ [x]) []

/-- The safe characters encode_params passes to urlencode. -/
def encodeSafe : List Char := [':', ',']

/-- utils.encode_params (utils.py 44-67): wrap scalars into singleton
lists, de-duplicate lists with unique_everseen, then urlencode with
doseq=True: one quoted key=value piece per value, joined with
ampersands; keys with empty lists contribute nothing. -/
def encodeParams (params : RawParams) : String :=
  let prepared : List (String × List PVal) := params.map
    (fun kv => match kv.2 with
      | .many vs => (kv.1, uniqueEverseen vs)
      | .one v => (kv.1, [v]))
  let pieces : List String := prepared.foldl
    (fun acc kv =>
      acc ++ kv.2.map
        (fun v => pyQuote encodeSafe kv.1 ++ "=" ++ pyQuote encodeSafe (pvalStr v)))
    []
  String.intercalate "&" pieces

/-- encode_params with the `params or` guard mapping None to the empty
mapping. -/
def encodeParamsOpt : Option RawParams → String
  | none => encodeParams []
  | some p => encodeParams p

/-- First-seen de-duplication written as the classic nub, the spec-side
wording for the amended claim. -/
def firstSeenDedup : List PVal → List PVal
  | [] => []
  | x :: xs => x :: firstSeenDedup (xs.filter (fun y => !(y == x)))
termination_by l => l.length
decreasing_by
  simp only [List.length_cons]
  exact Nat.lt_succ_of_le (List.length_filter_le _ _)

/-- The value list a key contributes according to the amended spec. -/
def specParamValues : ParamIn → List PVal
  | .one v => [v]
  | .many vs => firstSeenDedup vs

/-- The amended spec wording of the encoder: keys with nonempty value
lists contribute their first-seen-deduplicated values in order, each as a
quoted key=value piece, joined with ampersands; an absent map encodes to
the empty string. -/
def specEncodeFirstSeen : Option RawParams → String
  | none => ""
  | some ps =>
    String.intercalate "&" (List.flatten (ps.map (fun kv =>
      (specParamValues kv.2).map
        (fun v => pyQuote encodeSafe kv.1 ++ "=" ++ pyQuote encodeSafe (pvalStr v)))))

/-- Last-seen de-duplication: the set ordered by last occurrence, the
reading the claim asserts. -/
def lastSeenDedup (l : List PVal) : List PVal :=
  (uniqueEverseen l.reverse).reverse

/-- The claim wording of the encoder with last-seen de-duplication. -/
def specEncodeLastSeen : Option RawParams → String
  | none => ""
  | some ps =>
    String.intercalate "&" (List.flatten (ps.map (fun kv =>
      (match kv.2 with
        | .one v => [v]
        | .many vs => lastSeenDedup vs).map
        (fun v => pyQuote encodeSafe kv.1 ++ "=" ++ pyQuote encodeSafe (pvalStr v)))))

/-- python lstrip of slashes. -/
def lstripSlash (s : String) : String :=
  String.mk (s.data.dropWhile (fun c => c = '/'))

/-- python rstrip of slashes. -/
def rstripSlash (s : String) : String :=
  String.mk ((s.data.reverse.dropWhile (fun c => c = '/')).reverse)

/-- The index of the first occurrence of needle inside hay. -/
def findSubstrIdx (hay needle : List Char) : Option Nat :=
  (List.range (hay.length + 1)).find? (fun i => needle.isPrefixOf (hay.drop i))

/-- utils.remove_prefix: drop a leading occurrence of pre from s. -/
def removeLeading (s pre : String) : String :=
  if pre.data.isPrefixOf s.data then String.mk (s.data.drop pre.data.length) else s

/-- Models yarl URL(u).path for http(s) URLs: the part from the first
slash after the host, or a single slash when there is none. -/
def urlPathOf (u : String) : String :=
  match findSubstrIdx u.data ("://".data) with
  | none => u
  | some i =>
    let rest := u.data.drop (i + 3)
    match rest.findIdx? (fun c => c = '/') with
    | none => "/"
    | some j => String.mk (rest.drop j)

/-- AbstractClient._build_request_url (base/client.py 130-143): an
absolute path is returned unchanged when it CONTAINS the base url as a
substring and rejected with ValueError otherwise; a relative path is
stripped of the base url path and glued onto the base url together with
the encoded params. -/
def buildRequestUrl (baseUrl path : String) (params : Option RawParams) :
    Except FhirError String :=
  if isAbsoluteUrl path then
    if strContains path baseUrl then .ok path
    else .error .valueError
  else
    let p1 := lstripSlash path
    let basePath := lstripSlash (urlPathOf baseUrl) ++ "/"
    let p2 := removeLeading p1 basePath
    .ok (rstripSlash baseUrl ++ "/" ++ lstripSlash p2 ++ "?" ++ encodeParamsOpt params)

/-- First-seen de-duplication of a string list. -/
def uniqStr (l : List String) : List String :=
  l.foldl (fun acc x => if acc.contains x then acc else acc ++ [x]) []

/-- Append a member only when it is missing. -/
def addIfMissing (l : List String) (x : String) : List String :=
  if l.contains x then l else l ++ [x]

/-- Models list(attrs_set) in elements() (searchset.py 264-273): python
set iteration order is arbitrary, so the set is materialised here in a
canonical first-seen order; all claims about the value are order
independent.  Without exclude the set is united with id and
resourceType. -/
def elementsAttrsList (attrs : List String) (exclude : Bool) : List String :=
  let base := uniqStr attrs
  if exclude then base else addIfMissing (addIfMissing base "id") "resourceType"

/-- The _elements value built by elements(): comma-joined set, prefixed
with a minus when exclude is set. -/
def elementsValue (attrs : List String) (exclude : Bool) : String :=
  (if exclude then "-" else "") ++ String.intercalate "," (elementsAttrsList attrs exclude)

/-- AbstractSearchSet.elements (searchset.py 264-273): clone with the
_elements parameter overridden. -/
def elementsP (s : SearchSetP) (attrs : List String) (exclude : Bool) : SearchSetP :=
  cloneP s true [("_elements", [.s (elementsValue attrs exclude)])]

/-- A heap cell: one python list object holding parameter values. -/
abbrev Cell := List PVal

/-- The python heap of list objects reachable from parameter dicts, an
explicit store making aliasing observable. -/
structure Heap where
  cells : List Cell
deriving DecidableEq

/-- The number of allocated cells. -/
def Heap.size (h : Heap) : Nat := h.cells.length

/-- Read a list object (dangling addresses read as empty). -/
def Heap.read (h : Heap) (a : Nat) : Cell := h.cells.getD a []

/-- Allocate a fresh list object at the next address. -/
def Heap.alloc (h : Heap) (c : Cell) : Heap × Nat :=
  (⟨h.cells ++ [c]⟩, h.cells.length)

/-- Mutate a list object in place. -/
def Heap.write (h : Heap) (a : Nat) (c : Cell) : Heap :=
  ⟨h.cells.set a c⟩

/-- A parameter dict as python holds it: insertion-ordered keys, each
bound to the ADDRESS of a list object. -/
abbrev ParamsD := List (String × Nat)

/-- A SearchSet whose params dict references list objects in the heap. -/
structure MSearchSet where
  resourceType : String
  params : ParamsD
deriving DecidableEq

/-- The value of a params dict under a heap. -/
def readout (h : Heap) (p : ParamsD) : List (String × Cell) :=
  p.map (fun kv => (kv.1, h.read kv.2))

/-- All addresses of the dict are live in the heap. -/
def ValidP (h : Heap) (p : ParamsD) : Prop :=
  ∀ kv ∈ p, kv.2 < h.size

/-- copy.deepcopy of the params dict: a fresh cell for every key. -/
def deepcopyParams (h : Heap) : ParamsD → Heap × ParamsD
  | [] => (h, [])
  | kv :: rest =>
    let ha := h.alloc (h.read kv.2)
    let hr := deepcopyParams ha.1 rest
    (hr.1, (kv.1, ha.2) :: hr.2)

/-- defaultdict(list).__getitem__: the existing binding, or a fresh empty
list bound at the end. -/
def getOrCreate (h : Heap) (p : ParamsD) (k : String) : Heap × ParamsD × Nat :=
  match p.find? (fun kv => kv.1 == k) with
  | some kv => (h, p, kv.2)
  | none =>
    let ha := h.alloc []
    (ha.1, p ++ [(k, ha.2)], ha.2)

/-- list.extend on the cell bound to the key: the non-override branch of
the clone kwargs loop. -/
def extendKeyM (h : Heap) (p : ParamsD) (k : String) (vs : List PVal) : Heap × ParamsD :=
  let g := getOrCreate h p k
  (g.1.write g.2.2 (g.1.read g.2.2 ++ vs), g.2.1)

/-- dict.__setitem__ binding the key to a fresh list object: the override
branch of the clone kwargs loop. -/
def setKeyM (h : Heap) (p : ParamsD) (k : String) (vs : List PVal) : Heap × ParamsD :=
  let ha := h.alloc vs
  if p.any (fun kv => kv.1 == k) then
    (ha.1, p.map (fun kv => if kv.1 == k then (kv.1, ha.2) else kv))
  else (ha.1, p ++ [(k, ha.2)])

/-- The kwargs loop of clone (searchset.py 249-256). -/
def cloneKwargsLoop (override : Bool) :
    Heap → ParamsD → List (String × List PVal) → Heap × ParamsD
  | h, p, [] => (h, p)
  | h, p, kv :: rest =>
    let step := if override then setKeyM h p kv.1 kv.2 else extendKeyM h p kv.1 kv.2
    cloneKwargsLoop override step.1 step.2 rest

/-- AbstractSearchSet.clone (searchset.py 247-262) on the heap model:
deep copy of the params dict, then mutation of the copy only. -/
def cloneM (h : Heap) (s : MSearchSet) (override : Bool)
    (kwargs : List (String × List PVal)) : Heap × MSearchSet :=
  let d := deepcopyParams h s.params
  let r := cloneKwargsLoop override d.1 d.2 kwargs
  (r.1, ⟨s.resourceType, r.2⟩)

/-- AbstractSearchSet.search (searchset.py 339-340) on the heap model. -/
def searchM (h : Heap) (s : MSearchSet) (kwargs : List (String × List PVal)) :
    Except FhirError (Heap × MSearchSet) :=
  match sqNew kwargs with
  | .error e => .error e
  | .ok m => .ok (cloneM h s false m)

/-- AbstractSearchSet.sort (searchset.py 345-347) on the heap model. -/
def sortM (h : Heap) (s : MSearchSet) (keys : List String) : Heap × MSearchSet :=
  cloneM h s true [("_sort", [.s (String.intercalate "," keys)])]

/-- AbstractSearchSet.limit (searchset.py 342-343) on the heap model. -/
def limitM (h : Heap) (s : MSearchSet) (n : Int) : Heap × MSearchSet :=
  cloneM h s true [("_count", [.n n])]

/-- AbstractSearchSet.elements (searchset.py 264-273) on the heap model. -/
def elementsM (h : Heap) (s : MSearchSet) (attrs : List String) (exclude : Bool) :
    Heap × MSearchSet :=
  cloneM h s true [("_elements", [.s (elementsValue attrs exclude)])]

/-- AbstractSearchSet.include (searchset.py 289-319) on the heap model. -/
def includeM (h : Heap) (s : MSearchSet) (rt : String) (attr : Option String)
    (target : Option String) (recursive iterate reverse : Bool) :
    Except FhirError (Heap × MSearchSet) :=
  let key := String.intercalate ":"
    ((if reverse then ["_revinclude"] else ["_include"])
      ++ (if iterate then ["iterate"] else [])
      ++ (if recursive then ["recursive"] else []))
  if rt = "*" then .ok (cloneM h s false [(key, [.s "*"])])
  else
    match attr with
    | none => .error .typeError
    | some a =>
      let v := String.intercalate ":"
        ([rt, a] ++ (match target with | some t => [t] | none => []))
      .ok (cloneM h s false [(key, [.s v])])

/-- AbstractSearchSet.revinclude (searchset.py 321-337) on the heap
model. -/
def revincludeM (h : Heap) (s : MSearchSet) (rt : String) (attr : Option String)
    (target : Option String) (recursive iterate : Bool) :
    Except FhirError (Heap × MSearchSet) :=
  includeM h s rt attr target recursive iterate true

/-- AbstractSearchSet.has (searchset.py 275-287) on the heap model. -/
def hasM (h : Heap) (s : MSearchSet) (args : List String)
    (kwargs : List (String × List PVal)) : Except FhirError (Heap × MSearchSet) :=
  if args.length % 2 ≠ 0 then .error .typeError
  else
    match sqNew kwargs with
    | .error e => .error e
    | .ok m =>
      let keyPart := String.intercalate ":"
        ((chunks2 args).map (fun pair => "_has:" ++ String.intercalate ":" pair))
      .ok (cloneM h s false (m.map (fun kv => (keyPart ++ ":" ++ kv.1, kv.2))))

/-- h2 extends h: at least n cells, and every address below n reads the
same. -/
def ExtendsFrom (h h2 : Heap) (n : Nat) : Prop :=
  n ≤ h2.size ∧ ∀ a, a < n → h2.read a = h.read a

/-- Every address of the dict is at least n. -/
def FreshFrom (p : ParamsD) (n : Nat) : Prop :=
  ∀ kv ∈ p, n ≤ kv.2

/-- The frame property of a builder call: the original params read the
same values afterwards, and the derived SearchSet shares no list object
with the original. -/
def PreservesAndFresh (h : Heap) (s : MSearchSet) (out : Heap × MSearchSet) : Prop :=
  readout out.1 s.params = readout h s.params
  ∧ ∀ kv ∈ s.params, ∀ kv2 ∈ out.2.params, kv.2 ≠ kv2.2

/-- The concrete heap of the C2 witness: one live cell. -/
def heapW : Heap := ⟨[[PVal.s "John"]]⟩

/-- The concrete SearchSet of the C2 witness. -/
def ssW : MSearchSet := ⟨"Patient", [("name", 0)]⟩

/-- C1: get() fetches with the limit forced to 2 and disambiguates by
match count: zero results fail ResourceNotFound, two or more fail
MultipleResourcesFound, exactly one is returned. -/
theorem C1_get_disambiguation (server : FetchReq → BundleData) (s : SearchSetP)
    (l : List ResourceData) (h : fetchP server (limitP s 2) = .ok l) :
    (l = [] → getSS server s = .error .resourceNotFound)
    ∧ (2 ≤ l.length → getSS server s = .error .multipleResourcesFound)
    ∧ (∀ r, l = [r] → getSS server s = .ok r) := by
  refine ⟨?_, ?_, ?_⟩
  · intro hl
    subst hl
    simp [getSS, h]
  · intro hl
    simp only [getSS, h]
    have h0 : ¬ l.length = 0 := by omega
    have h1 : l.length > 1 := by omega
    simp [h0, h1]
  · intro r hl
    subst hl
    simp [getSS, h]

theorem C1_get_disambiguation_witness :
    getSS oneEntryServer ⟨"Patient", []⟩ = .ok ⟨"Patient", some "p1", []⟩ :=
  (C1_get_disambiguation oneEntryServer ⟨"Patient", []⟩
    [⟨"Patient", some "p1", []⟩] rfl).2.2 ⟨"Patient", some "p1", []⟩ rfl

/-- C3 counterexample: two Resources with no id both derive a null
reference and compare EQUAL under AbstractResource.__eq__ (None equals
None in python), refuting the final clause of the claim. -/
theorem C3_counterexample_no_id_equal :
    ResourceData.reference ⟨"Patient", none, []⟩ = none
    ∧ ResourceData.reference ⟨"Observation", none, [("status", "final")]⟩ = none
    ∧ resourceLikeEq (.res ⟨"Patient", none, []⟩)
        (.res ⟨"Observation", none, [("status", "final")]⟩) = true := by
  decide

/-- C3 (amended): equality of two objects holds exactly when both are
Resource-like and carry the same reference value; Resources with equal
resourceType and id are equal regardless of other fields; a Resource with
a null reference is equal exactly to the Resource-like objects whose
reference is also null. -/
theorem C3_equality_by_reference :
    (∀ r1 r2 : ResourceData, r1.resourceType = r2.resourceType → r1.id = r2.id →
      resourceLikeEq (.res r1) (.res r2) = true)
    ∧ (∀ a b : PyObject, resourceLikeEq a b = true ↔
        ∃ x, refOf a = some x ∧ refOf b = some x)
    ∧ (∀ r : ResourceData, r.reference = none →
        ∀ o : PyObject, (resourceLikeEq (.res r) o = true ↔ refOf o = some none)) := by
  refine ⟨?_, ?_, ?_⟩
  · intro r1 r2 ht hi
    simp [resourceLikeEq, refOf, ResourceData.reference, ht, hi]
  · intro a b
    cases a <;> cases b <;> simp [resourceLikeEq, refOf] <;> try exact eq_comm
  · intro r h o
    cases o <;> simp [resourceLikeEq, refOf, h] <;> try exact eq_comm

theorem C3_equality_by_reference_witness :
    resourceLikeEq (.res ⟨"Patient", some "p1", [("active", "true")]⟩)
      (.res ⟨"Patient", some "p1", []⟩) = true :=
  C3_equality_by_reference.1 ⟨"Patient", some "p1", [("active", "true")]⟩
    ⟨"Patient", some "p1", []⟩ rfl rfl

theorem sdict_lookup_set_self (d : SDict) (k v : String) :
    lookupSDict (setSDict d k v) k = some v := by
  induction d with
  | nil => simp [lookupSDict, setSDict]
  | cons a tl ih =>
    by_cases h : a.1 = k
    · simp [setSDict, lookupSDict, h]
    · simp [setSDict, lookupSDict, h, ih]

theorem sdict_lookup_set_ne (d : SDict) (k v k2 : String) (hne : k2 ≠ k) :
    lookupSDict (setSDict d k v) k2 = lookupSDict d k2 := by
  have hkk2 : ¬ k = k2 := fun h => hne h.symm
  induction d with
  | nil => simp [lookupSDict, setSDict, hkk2]
  | cons a tl ih =>
    by_cases ha : a.1 = k
    · have hk2 : ¬ a.1 = k2 := by rw [ha]; exact hkk2
      simp [setSDict, lookupSDict, ha, hk2, hkk2, hne]
    · by_cases hak : a.1 = k2 <;> simp [setSDict, lookupSDict, ha, hak, hkk2, hne, ih]

/-- C4 (amended): after construction, the base/resource.py variant treats
re-assigning the SAME resourceType value as a no-op and rejects any
different value, while the legacy base/lib.py variant rejects EVERY
assignment to resourceType, the already-held value included. -/
theorem C4_resourceType_immutability (rt : String) (fields : SDict) :
    (∃ d2, setItemResourcePy (mkResourceDict rt fields) "resourceType" rt = .ok d2
        ∧ ∀ k, lookupSDict d2 k = lookupSDict (mkResourceDict rt fields) k)
    ∧ (∀ v, v ≠ rt →
        setItemResourcePy (mkResourceDict rt fields) "resourceType" v = .error .immutableField)
    ∧ (∀ v, setItemLibPy (mkResourceDict rt fields) "resourceType" v = .error .immutableField) := by
  have hlook : lookupSDict (mkResourceDict rt fields) "resourceType" = some rt :=
    sdict_lookup_set_self fields "resourceType" rt
  refine ⟨?_, ?_, ?_⟩
  · refine ⟨setSDict (mkResourceDict rt fields) "resourceType" rt, ?_, ?_⟩
    · simp [setItemResourcePy, hlook]
    · intro k
      by_cases hk : k = "resourceType"
      · rw [hk, sdict_lookup_set_self, hlook]
      · exact sdict_lookup_set_ne _ _ _ _ hk
  · intro v hv
    have hmem : memKeySDict (mkResourceDict rt fields) "resourceType" = true := by
      simp [memKeySDict, hlook]
    have hne : some v ≠ lookupSDict (mkResourceDict rt fields) "resourceType" := by
      rw [hlook]; simp [hv]
    simp [setItemResourcePy, hmem, hne]
  · intro v
    simp [setItemLibPy]

theorem C4_resourceType_immutability_witness :
    setItemResourcePy (mkResourceDict "Patient" [("id", "p1")]) "resourceType" "Patient"
        = .ok (setSDict (mkResourceDict "Patient" [("id", "p1")]) "resourceType" "Patient")
    ∧ setItemResourcePy (mkResourceDict "Patient" [("id", "p1")]) "resourceType" "Practitioner"
        = .error .immutableField
    ∧ setItemLibPy (mkResourceDict "Patient" [("id", "p1")]) "resourceType" "Patient"
        = .error .immutableField := by
  obtain ⟨h1, h2, h3⟩ := C4_resourceType_immutability "Patient" [("id", "p1")]
  refine ⟨?_, h2 "Practitioner" (by decide), h3 "Patient"⟩
  decide

/-- C4 counterexample: under the legacy base/lib.py __setitem__, assigning
resourceType the value it already holds raises instead of succeeding as a
no-op. -/
theorem C4_counterexample_same_value_raises :
    lookupSDict (mkResourceDict "Patient" []) "resourceType" = some "Patient"
    ∧ setItemLibPy (mkResourceDict "Patient" []) "resourceType" "Patient"
        = .error .immutableField := by
  decide

theorem splitCharAux_count_zero (c : Char) :
    ∀ (l acc : List Char), l.count c = 0 →
      splitCharAux c l acc = [acc.reverse ++ l] := by
  intro l
  induction l with
  | nil => intro acc _; simp [splitCharAux]
  | cons x xs ih =>
    intro acc h
    have hx : ¬ x = c := by
      intro hxc
      subst hxc
      simp [List.count_cons] at h
    have hxs : xs.count c = 0 := by
      simpa [List.count_cons, hx] using h
    simp [splitCharAux, hx, ih (x :: acc) hxs]

theorem splitCharAux_count_one (c : Char) :
    ∀ (l acc : List Char), l.count c = 1 →
      ∃ a b : List Char, l = a ++ c :: b ∧ a.count c = 0 ∧ b.count c = 0
        ∧ splitCharAux c l acc = [acc.reverse ++ a, b] := by
  intro l
  induction l with
  | nil => intro acc h; simp at h
  | cons x xs ih =>
    intro acc h
    by_cases hx : x = c
    · subst hx
      have hxs : xs.count x = 0 := by
        simpa [List.count_cons] using h
      refine ⟨[], xs, by simp, by simp, hxs, ?_⟩
      simp [splitCharAux, splitCharAux_count_zero x xs [] hxs]
    · have hxs : xs.count c = 1 := by
        simpa [List.count_cons, hx] using h
      obtain ⟨a, b, hl, ha, hb, hsplit⟩ := ih (x :: acc) hxs
      refine ⟨x :: a, b, by simp [hl], by simp [List.count_cons, hx, ha], hb, ?_⟩
      simp [splitCharAux, hx, hsplit]

theorem pySplitChar_pair (c : Char) (s : String) (h : countChar c s = 1) :
    ∃ t i : String, pySplitChar c s = [t, i]
      ∧ s = t ++ String.mk [c] ++ i
      ∧ countChar c t = 0 ∧ countChar c i = 0 := by
  obtain ⟨a, b, hl, ha, hb, hsplit⟩ := splitCharAux_count_one c s.data [] h
  refine ⟨String.mk a, String.mk b, ?_, ?_, ha, hb⟩
  · simp [pySplitChar, hsplit]
  · apply String.ext
    show s.data = (String.mk a ++ String.mk [c] ++ String.mk b).data
    simpa using hl

/-- C5 (amended): a reference is local iff it contains exactly one slash
AND the part before the slash is a resource type known to the client
schema; a local reference splits into that resourceType and the id after
the slash; any non-local reference has null resourceType and id, and
to_resource() on it always raises ResourceNotFound (in both the cached
fhirpy/lib.py variant and the base/lib.py variant). -/
theorem C5_reference_locality (schema : List String) (ref : String) :
    (isLocalRef schema ref = true ↔
      (countChar '/' ref = 1
        ∧ schema.contains ((pySplitChar '/' ref).getD 0 "") = true))
    ∧ (isLocalRef schema ref = true →
        ∃ t i, refResourceType schema ref = some t ∧ refId schema ref = some i
          ∧ ref = t ++ "/" ++ i ∧ countChar '/' t = 0 ∧ countChar '/' i = 0
          ∧ schema.contains t = true)
    ∧ (isLocalRef schema ref = false →
        refResourceType schema ref = none ∧ refId schema ref = none)
    ∧ (∀ cache serverGet nocache, isLocalRef schema ref = false →
        refToResource schema cache serverGet ref nocache = .error .resourceNotFound)
    ∧ (∀ resolve, isLocalRef schema ref = false →
        syncRefToResource schema resolve ref = .error .resourceNotFound) := by
  have hiff : isLocalRef schema ref = true ↔
      (countChar '/' ref = 1
        ∧ schema.contains ((pySplitChar '/' ref).getD 0 "") = true) := by
    constructor
    · intro h
      by_cases hc : countChar '/' ref = 1
      · refine ⟨hc, ?_⟩
        simpa [isLocalRef, hc] using h
      · simp [isLocalRef, hc] at h
    · intro ⟨hc, hs⟩
      unfold isLocalRef
      rw [if_neg (by simp [hc])]
      exact hs
  refine ⟨hiff, ?_, ?_, ?_, ?_⟩
  · intro h
    obtain ⟨hc, hs⟩ := hiff.mp h
    obtain ⟨t, i, hsplit, hjoin, ht, hi⟩ := pySplitChar_pair '/' ref hc
    refine ⟨t, i, ?_, ?_, ?_, ht, hi, ?_⟩
    · simp [refResourceType, h, hsplit]
    · simp [refId, h, hsplit]
    · simpa using hjoin
    · rw [hsplit] at hs
      simpa using hs
  · intro h
    constructor <;> simp [refResourceType, refId, h]
  · intro cache serverGet nocache h
    simp [refToResource, h]
  · intro resolve h
    simp [syncRefToResource, h]

/-- C5 counterexample: a reference with exactly one slash whose type is
not in the client schema is classified EXTERNAL, refuting the claim that
exactly one slash suffices for locality. -/
theorem C5_counterexample_schema_gate :
    countChar '/' "Unknown/u1" = 1
    ∧ isLocalRef ["Patient"] "Unknown/u1" = false
    ∧ refResourceType ["Patient"] "Unknown/u1" = none
    ∧ refId ["Patient"] "Unknown/u1" = none := by
  decide

theorem C5_reference_locality_witness :
    isLocalRef ["Patient"] "Patient/p1" = true
    ∧ refToResource ["Patient"] (fun _ _ => none)
        (fun _ _ => .error .typeError) "http://e.co/P/1" false
        = .error .resourceNotFound := by
  refine ⟨by decide, ?_⟩
  exact (C5_reference_locality ["Patient"] "http://e.co/P/1").2.2.2.1
    (fun _ _ => none) (fun _ _ => .error .typeError) false (by decide)

/-- C6 (amended): lib_sync iteration follows the next link when present
and terminates as soon as a page carries none (it never falls back to a
page parameter); for the [5,5,5,3] scenario under limit(5) it returns
exactly 18 unique ids in exactly 4 page requests.  The legacy base/lib.py
fetch_all instead increments the page parameter starting at 1 until an
empty page, returning the same 18 ids in 5 page requests. -/
theorem C6_pagination :
    (fetchAllSync nextLinkServer (limitP ⟨"Patient", []⟩ 5) 10 = .ok (scenAll18, 4))
    ∧ (scenAll18.map (fun r => r.id)).Nodup
    ∧ scenAll18.length = 18
    ∧ (fetchAllLegacy pageServer (limitP ⟨"Patient", []⟩ 5) 10 = .ok (scenAll18, 5))
    ∧ (∀ (server : FetchReq → BundleData) (s : SearchSetP) (fuel : Nat)
         (rs : List ResourceData),
        findNextLink (server ⟨s.resourceType, some s.params⟩) = none →
        getBundleResources s.resourceType (server ⟨s.resourceType, some s.params⟩) = .ok rs →
        fetchAllSync server s (fuel + 1) = .ok (rs, 1)) := by
  refine ⟨by decide, by decide, by decide, by decide, ?_⟩
  intro server s fuel rs h1 h2
  simp [fetchAllSync, iterSyncPages, h1, h2]

theorem C6_pagination_witness :
    fetchAllSync (fun _ => ⟨"Bundle", scenEntries 1 2, []⟩) ⟨"Patient", []⟩ 3
      = .ok ([scenPatient 1, scenPatient 2], 1) :=
  C6_pagination.2.2.2.2 (fun _ => ⟨"Bundle", scenEntries 1 2, []⟩) ⟨"Patient", []⟩ 2
    [scenPatient 1, scenPatient 2] (by decide) (by decide)

/-- C6 counterexample: under the page-increment protocol that the claim
itself prescribes for servers without next links, the [5,5,5,3] scenario
costs 5 page requests (the terminating empty page included), not 4; and
the lib_sync iterator never increments a page parameter: on a server
whose pages carry no next link it stops after one request even though
page 2 is nonempty. -/
theorem C6_counterexample_request_count :
    (fetchAllLegacy pageServer (limitP ⟨"Patient", []⟩ 5) 10 = .ok (scenAll18, 5))
    ∧ (5 ≠ 4)
    ∧ (fetchAllSync pageServer (limitP ⟨"Patient", []⟩ 5) 10
        = .ok ((List.range 5).map (fun j => scenPatient (1 + j)), 1))
    ∧ (pageBundle 2).entry ≠ [] := by
  refine ⟨by decide, by decide, by decide, by decide⟩

theorem getLastD_append_singleton (l : List String) (a d : String) :
    (l ++ [a]).getLastD d = a := by
  induction l with
  | nil => rfl
  | cons x xs ih => simpa [List.getLastD] using ih

/-- C7 (amended): in searchset.py SQ the trailing segment is stripped and
treated as a value-prefix operator or modifier exactly when it belongs to
one of the two sets, for every key independent of the segment count, and
an unrecognised trailing segment becomes a chain hop.  In the legacy
base/lib.py SQ the decision is by segment parity instead: with an odd
segment count the trailing segment is never stripped (recognised or not),
and with an even count it is always stripped, a candidate outside both
sets being dropped silently. -/
theorem C7_sq_operator_detection (key : String) (vals : List PVal) :
    (∀ p0 rest last, pySplitDunder key = (p0 :: rest) ++ [last] →
      (valueOps.contains last = true →
        ∀ chain tp, buildChainNew p0 rest = .ok chain → transformParam chain = .ok tp →
          sqKeyNew key vals
            = .ok (tp, (vals.map transformValue).map (fun v => PVal.s (last ++ pvalStr v))))
      ∧ (paramOps.contains last = true →
        ∀ chain opT tp, buildChainNew p0 rest = .ok chain →
          transformParam last = .ok opT →
          transformParam (chain ++ ":" ++ opT) = .ok tp →
          sqKeyNew key vals = .ok (tp, vals.map transformValue))
      ∧ (valueOps.contains last = false → paramOps.contains last = false →
        ∀ chain tp, buildChainNew p0 (rest ++ [last]) = .ok chain →
          transformParam chain = .ok tp →
          sqKeyNew key vals = .ok (tp, vals.map transformValue)))
    ∧ (∀ base chained, pySplitDunder key = base :: chained →
        (base :: chained).length % 2 = 1 →
        ∀ tp, transformParam (String.intercalate ":"
            (base :: (chunks2 chained).map (fun pair => String.intercalate "." pair))) = .ok tp →
          sqKeyLegacy key vals = .ok (tp, vals.map transformValue))
    ∧ (∀ base chained last, pySplitDunder key = (base :: chained) ++ [last] →
        ((base :: chained) ++ [last]).length % 2 = 0 →
        valueOps.contains last = false → paramOps.contains last = false →
        ∀ tp, transformParam (String.intercalate ":"
            (base :: (chunks2 chained).map (fun pair => String.intercalate "." pair))) = .ok tp →
          sqKeyLegacy key vals = .ok (tp, vals.map transformValue)) := by
  refine ⟨?_, ?_, ?_⟩
  · intro p0 rest last hsplit
    have hlast : (pySplitDunder key).getLastD "" = last := by
      rw [hsplit]; exact getLastD_append_singleton _ _ _
    have hdrop : (pySplitDunder key).dropLast = p0 :: rest := by
      rw [hsplit]; exact List.dropLast_concat
    refine ⟨?_, ?_, ?_⟩
    · intro hv chain tp hchain htp
      have hpo : paramOps.contains last = false := by
        have hmem : last = "eq" ∨ last = "ne" ∨ last = "gt" ∨ last = "ge" ∨ last = "lt"
            ∨ last = "le" ∨ last = "sa" ∨ last = "eb" ∨ last = "ap" := by
          simpa [valueOps] using hv
        rcases hmem with rfl | rfl | rfl | rfl | rfl | rfl | rfl | rfl | rfl <;> decide
      have hpo2 : ¬ last ∈ paramOps := by simpa using hpo
      have hv2 : last ∈ valueOps := by simpa using hv
      have hstrip : sqStripNew (pySplitDunder key) = (some last, p0 :: rest) := by
        simp only [sqStripNew, hlast, hdrop]
        simp [hv2]
      simp [sqKeyNew, hstrip, hpo2, hchain, htp]
    · intro hp chain opT tp hchain hop htp
      have hp2 : last ∈ paramOps := by simpa using hp
      have hstrip : sqStripNew (pySplitDunder key) = (some last, p0 :: rest) := by
        simp only [sqStripNew, hlast, hdrop]
        simp [hp2]
      simp [sqKeyNew, hstrip, hp2, hchain, hop, htp]
    · intro hv hp chain tp hchain htp
      have hv2 : ¬ last ∈ valueOps := by simpa using hv
      have hp2 : ¬ last ∈ paramOps := by simpa using hp
      have hstrip : sqStripNew (pySplitDunder key) = (none, p0 :: (rest ++ [last])) := by
        simp only [sqStripNew, hlast]
        simp [hv2, hp2, hsplit]
      simp [sqKeyNew, hstrip, hchain, htp]
  · intro base chained hsplit hodd tp htp
    have hstrip : sqStripLegacy (pySplitDunder key) = (none, base :: chained) := by
      have hlen : (pySplitDunder key).length % 2 = 1 := by rw [hsplit]; exact hodd
      simp only [sqStripLegacy, hlen]
      simp [hsplit]
    simp [sqKeyLegacy, hstrip, htp]
  · intro base chained last hsplit heven hv hp tp htp
    have hv2 : ¬ last ∈ valueOps := by simpa using hv
    have hp2 : ¬ last ∈ paramOps := by simpa using hp
    have hlast : (pySplitDunder key).getLastD "" = last := by
      rw [hsplit]; exact getLastD_append_singleton _ _ _
    have hdrop : (pySplitDunder key).dropLast = base :: chained := by
      rw [hsplit]; exact List.dropLast_concat
    have hstrip : sqStripLegacy (pySplitDunder key) = (some last, base :: chained) := by
      have hlen : (pySplitDunder key).length % 2 = 0 := by rw [hsplit]; exact heven
      simp only [sqStripLegacy, hlen, hlast, hdrop]
      simp
    simp [sqKeyLegacy, hstrip, hv2, hp2, htp]

theorem C7_sq_operator_detection_witness :
    sqKeyNew "patient__Patient__birth_date__ge" [PVal.s "2000"]
      = .ok ("patient:Patient.birth-date", [PVal.s "ge2000"]) := by
  have h := ((C7_sq_operator_detection "patient__Patient__birth_date__ge" [PVal.s "2000"]).1
      "patient" ["Patient", "birth_date"] "ge" (by decide)).1 (by decide)
      "patient:Patient.birth_date" "patient:Patient.birth-date" (by decide) (by decide)
  simpa using h

/-- C7 counterexample: the legacy SQ resolves by parity, not membership:
the recognised operator ge in the odd key patient__name__ge is kept as a
chain hop (the new SQ strips it), and the unrecognised trailing segment
of the even key a__b is dropped instead of becoming a hop. -/
theorem C7_counterexample_parity_first :
    sqKeyLegacy "patient__name__ge" [PVal.s "2000"]
      = .ok ("patient:name.ge", [PVal.s "2000"])
    ∧ valueOps.contains "ge" = true
    ∧ sqKeyNew "patient__name__ge" [PVal.s "2000"]
      = .ok ("patient.name", [PVal.s "ge2000"])
    ∧ sqKeyLegacy "a__b" [PVal.s "x"] = .ok ("a", [PVal.s "x"]) := by
  refine ⟨by decide, by decide, by decide, by decide⟩

theorem foldl_append_eq_flatten {α β : Type} (l : List α) (f : α → List β) :
    ∀ init : List β,
      l.foldl (fun acc x => acc ++ f x) init = init ++ (l.map f).flatten := by
  induction l with
  | nil => intro init; simp
  | cons x xs ih => intro init; simp [ih, List.append_assoc]

theorem uniqueEverseen_foldl_eq (l : List PVal) : ∀ acc : List PVal,
    l.foldl (fun acc x => if acc.contains x then acc else acc ++ [x]) acc
      = acc ++ firstSeenDedup (l.filter (fun y => !(acc.contains y))) := by
  induction l with
  | nil => intro acc; simp [firstSeenDedup]
  | cons x xs ih =>
    intro acc
    by_cases hc : acc.contains x
    · have hmem : x ∈ acc := by simpa using hc
      have hfilter : (x :: xs).filter (fun y => !(acc.contains y))
          = xs.filter (fun y => !(acc.contains y)) := by
        simp [List.filter_cons, hmem]
      rw [List.foldl_cons, if_pos hc, ih acc, hfilter]
    · have hnmem : x ∉ acc := by simpa using hc
      have hfilter : (x :: xs).filter (fun y => !(acc.contains y))
          = x :: xs.filter (fun y => !(acc.contains y)) := by
        simp [List.filter_cons, hnmem]
      rw [List.foldl_cons, if_neg hc, ih (acc ++ [x]), hfilter]
      have hpred : ∀ y : PVal,
          (!((acc ++ [x]).contains y)) = ((!(acc.contains y)) && !(y == x)) := by
        intro y
        by_cases h1 : y ∈ acc
        · simp [h1]
        · by_cases h2 : y = x
          · subst h2
            simp [h1]
          · simp [h1, h2]
      have hfilter2 : xs.filter (fun y => !((acc ++ [x]).contains y))
          = (xs.filter (fun y => !(acc.contains y))).filter (fun y => !(y == x)) := by
        rw [List.filter_filter]
        apply List.filter_congr
        intro y _
        rw [hpred y, Bool.and_comm]
      rw [hfilter2]
      simp [firstSeenDedup, List.append_assoc]

theorem uniqueEverseen_eq_firstSeen (l : List PVal) :
    uniqueEverseen l = firstSeenDedup l := by
  have h := uniqueEverseen_foldl_eq l []
  simpa [uniqueEverseen] using h

/-- C8 (amended): encode_params de-duplicates each value list keeping the
FIRST occurrence of each value in first-seen order, emits one quoted
key=value piece per remaining value joined with ampersands, omits keys
with empty value lists, percent-encodes with ':' and ',' passed through
unescaped, and encodes an absent map as the empty string. -/
theorem C8_encode_params :
    (∀ p : Option RawParams, encodeParamsOpt p = specEncodeFirstSeen p)
    ∧ encodeParamsOpt none = ""
    ∧ pyQuote encodeSafe ":" = ":"
    ∧ pyQuote encodeSafe "," = ","
    ∧ pyQuote encodeSafe "/" = "%2F"
    ∧ pyQuote encodeSafe "a b" = "a%20b" := by
  refine ⟨?_, by decide, by decide, by decide, by decide, by decide⟩
  intro p
  cases p with
  | none => rfl
  | some ps =>
    simp only [encodeParamsOpt, specEncodeFirstSeen, encodeParams]
    rw [foldl_append_eq_flatten]
    simp only [List.nil_append, List.map_map]
    congr 1
    congr 1
    apply List.map_congr_left
    intro kv _
    cases h : kv.2 with
    | one v => simp [specParamValues, h]
    | many vs => simp [specParamValues, h, uniqueEverseen_eq_firstSeen]

/-- C8 counterexample: the de-duplication keeps the FIRST occurrence of
each value ([1,2,1] encodes as k=1&k=2), while the last-seen reading the
claim states would give k=2&k=1. -/
theorem C8_counterexample_first_seen :
    encodeParamsOpt (some [("k", .many [.s "1", .s "2", .s "1"])]) = "k=1&k=2"
    ∧ specEncodeLastSeen (some [("k", .many [.s "1", .s "2", .s "1"])]) = "k=2&k=1"
    ∧ encodeParamsOpt (some [("k", .many [.s "1", .s "2", .s "1"])])
        ≠ specEncodeLastSeen (some [("k", .many [.s "1", .s "2", .s "1"])]) := by
  refine ⟨by decide, by decide, by decide⟩

/-- C9 (amended): an absolute path is accepted, and returned unchanged,
exactly when it CONTAINS the configured base url as a substring; an
absolute path not containing the base url raises ValueError.  Prefixing
by the base url is sufficient but not necessary for acceptance. -/
theorem C9_absolute_url_check (baseUrl path : String) (params : Option RawParams)
    (habs : isAbsoluteUrl path = true) :
    (strContains path baseUrl = true →
      buildRequestUrl baseUrl path params = .ok path)
    ∧ (strContains path baseUrl = false →
      buildRequestUrl baseUrl path params = .error .valueError)
    ∧ (baseUrl.data.isPrefixOf path.data = true →
      buildRequestUrl baseUrl path params = .ok path) := by
  have hpre : baseUrl.data.isPrefixOf path.data = true →
      strContains path baseUrl = true := by
    intro h
    simp only [strContains, List.any_eq_true]
    exact ⟨0, by simp, by simpa using h⟩
  refine ⟨?_, ?_, ?_⟩
  · intro h
    simp [buildRequestUrl, habs, h]
  · intro h
    simp [buildRequestUrl, habs, h]
  · intro h
    simp [buildRequestUrl, habs, hpre h]

/-- C9 counterexample: an absolute url that merely CONTAINS the base url
without being prefixed by it is accepted unchanged, where the claim
demands a ValueError. -/
theorem C9_counterexample_substring_not_prefix :
    isAbsoluteUrl "http://evil.io/?u=http://b.io" = true
    ∧ ("http://b.io").data.isPrefixOf ("http://evil.io/?u=http://b.io").data = false
    ∧ buildRequestUrl "http://b.io" "http://evil.io/?u=http://b.io" none
        = .ok "http://evil.io/?u=http://b.io" := by
  refine ⟨by decide, by decide, by decide⟩

theorem C9_absolute_url_check_witness :
    buildRequestUrl "http://b.io" "http://b.io/Patient" none = .ok "http://b.io/Patient"
    ∧ buildRequestUrl "http://b.io" "http://evil.io/Patient" none = .error .valueError := by
  refine ⟨?_, ?_⟩
  · exact (C9_absolute_url_check "http://b.io" "http://b.io/Patient" none (by decide)).1
      (by decide)
  · exact (C9_absolute_url_check "http://b.io" "http://evil.io/Patient" none (by decide)).2.1
      (by decide)

theorem params_lookup_set_self (p : Params) (k : String) (vs : List PVal) :
    lookupParams (setParam p k vs) k = some vs := by
  induction p with
  | nil => simp [lookupParams, setParam]
  | cons a tl ih =>
    by_cases h : a.1 = k
    · simp [setParam, lookupParams, h]
    · simp [setParam, lookupParams, h, ih]

theorem uniqStr_foldl_mem (l : List String) : ∀ (acc : List String) (x : String),
    x ∈ l.foldl (fun acc y => if acc.contains y then acc else acc ++ [y]) acc
      ↔ x ∈ acc ∨ x ∈ l := by
  induction l with
  | nil => intro acc x; simp
  | cons y ys ih =>
    intro acc x
    by_cases hc : acc.contains y
    · have hmem : y ∈ acc := by simpa using hc
      rw [List.foldl_cons, if_pos hc, ih acc x]
      constructor
      · rintro (h | h)
        · exact Or.inl h
        · exact Or.inr (List.mem_cons_of_mem _ h)
      · rintro (h | h)
        · exact Or.inl h
        · rcases List.mem_cons.mp h with rfl | h2
          · exact Or.inl hmem
          · exact Or.inr h2
    · rw [List.foldl_cons, if_neg hc, ih (acc ++ [y]) x]
      simp [List.mem_append, or_assoc]

theorem uniqStr_foldl_nodup (l : List String) : ∀ acc : List String,
    acc.Nodup →
    (l.foldl (fun acc y => if acc.contains y then acc else acc ++ [y]) acc).Nodup := by
  induction l with
  | nil => intro acc h; simpa using h
  | cons y ys ih =>
    intro acc h
    by_cases hc : acc.contains y
    · rw [List.foldl_cons, if_pos hc]
      exact ih acc h
    · have hnmem : y ∉ acc := by simpa using hc
      rw [List.foldl_cons, if_neg hc]
      apply ih
      simp [List.nodup_append, h, hnmem]

theorem mem_uniqStr (l : List String) (x : String) : x ∈ uniqStr l ↔ x ∈ l := by
  have h := uniqStr_foldl_mem l [] x
  simpa [uniqStr] using h

theorem nodup_uniqStr (l : List String) : (uniqStr l).Nodup :=
  uniqStr_foldl_nodup l [] List.nodup_nil

theorem mem_addIfMissing (l : List String) (a x : String) :
    x ∈ addIfMissing l a ↔ x ∈ l ∨ x = a := by
  by_cases hmem : a ∈ l
  · simp only [addIfMissing]
    rw [if_pos (by simpa using hmem)]
    constructor
    · exact Or.inl
    · rintro (h | rfl)
      · exact h
      · exact hmem
  · have hc : l.contains a = false := by simpa using hmem
    simp [addIfMissing, hc, hmem, List.mem_append]

theorem nodup_addIfMissing (l : List String) (a : String) (h : l.Nodup) :
    (addIfMissing l a).Nodup := by
  by_cases hmem : a ∈ l
  · simp only [addIfMissing]
    rw [if_pos (by simpa using hmem)]
    exact h
  · have hc : l.contains a = false := by simpa using hmem
    simp [addIfMissing, hc, List.nodup_append, h, hmem]

/-- C10: elements(...) overrides the _elements parameter with a
comma-joined de-duplicated set: without exclude the set is the given
fields united with id and resourceType; with exclude the value is the
given fields only, prefixed with a minus. -/
theorem C10_elements_param (s : SearchSetP) (attrs : List String) :
    (∀ exclude, lookupParams (elementsP s attrs exclude).params "_elements"
        = some [.s (elementsValue attrs exclude)])
    ∧ (∃ l, elementsValue attrs false = String.intercalate "," l ∧ l.Nodup
        ∧ ∀ x, x ∈ l ↔ (x ∈ attrs ∨ x = "id" ∨ x = "resourceType"))
    ∧ (∃ l, elementsValue attrs true = "-" ++ String.intercalate "," l ∧ l.Nodup
        ∧ ∀ x, x ∈ l ↔ x ∈ attrs) := by
  refine ⟨?_, ?_, ?_⟩
  · intro exclude
    show lookupParams (setParam s.params "_elements" [.s (elementsValue attrs exclude)])
        "_elements" = some [.s (elementsValue attrs exclude)]
    exact params_lookup_set_self s.params "_elements" [.s (elementsValue attrs exclude)]
  · refine ⟨elementsAttrsList attrs false, rfl, ?_, ?_⟩
    · exact nodup_addIfMissing _ _ (nodup_addIfMissing _ _ (nodup_uniqStr attrs))
    · intro x
      simp [elementsAttrsList, mem_addIfMissing, mem_uniqStr, or_assoc]
  · refine ⟨elementsAttrsList attrs true, rfl, ?_, ?_⟩
    · exact nodup_uniqStr attrs
    · intro x
      simp [elementsAttrsList, mem_uniqStr]

theorem list_getD_set_ne {α : Type} (l : List α) (a b : Nat) (x d : α)
    (hne : b ≠ a) : (l.set a x).getD b d = l.getD b d := by
  induction l generalizing a b with
  | nil => simp
  | cons y ys ih =>
    cases a with
    | zero =>
      cases b with
      | zero => exact absurd rfl hne
      | succ b2 => simp
    | succ a2 =>
      cases b with
      | zero => simp
      | succ b2 =>
        have hne2 : b2 ≠ a2 := fun hh => hne (by rw [hh])
        simp only [List.set_cons_succ, List.getD_cons_succ]
        exact ih a2 b2 hne2

theorem Heap.size_write (h : Heap) (a : Nat) (c : Cell) : (h.write a c).size = h.size := by
  simp [Heap.write, Heap.size]

theorem Heap.read_write_ne (h : Heap) (a b : Nat) (c : Cell) (hne : b ≠ a) :
    (h.write a c).read b = h.read b :=
  list_getD_set_ne h.cells a b c [] hne

theorem Heap.size_alloc (h : Heap) (c : Cell) : (h.alloc c).1.size = h.size + 1 := by
  simp [Heap.alloc, Heap.size]

theorem Heap.read_alloc_lt (h : Heap) (c : Cell) (b : Nat) (hb : b < h.size) :
    (h.alloc c).1.read b = h.read b := by
  show (h.cells ++ [c]).getD b [] = h.cells.getD b []
  rw [List.getD_append]
  exact hb

theorem extendsFrom_refl (h : Heap) (n : Nat) (hn : n ≤ h.size) : ExtendsFrom h h n :=
  ⟨hn, fun _ _ => rfl⟩

theorem extendsFrom_trans {h h1 h2 : Heap} {n : Nat}
    (a : ExtendsFrom h h1 n) (b : ExtendsFrom h1 h2 n) : ExtendsFrom h h2 n :=
  ⟨b.1, fun x hx => (b.2 x hx).trans (a.2 x hx)⟩

theorem extendsFrom_mono {h h2 : Heap} {n m : Nat}
    (hx : ExtendsFrom h h2 n) (hmn : m ≤ n) : ExtendsFrom h h2 m :=
  ⟨le_trans hmn hx.1, fun a ha => hx.2 a (lt_of_lt_of_le ha hmn)⟩

theorem extendsFrom_alloc (h : Heap) (c : Cell) (n : Nat) (hn : n ≤ h.size) :
    ExtendsFrom h (h.alloc c).1 n :=
  ⟨by rw [Heap.size_alloc]; omega,
   fun a ha => Heap.read_alloc_lt h c a (lt_of_lt_of_le ha hn)⟩

theorem extendsFrom_write {h h1 : Heap} {n : Nat} (hx : ExtendsFrom h h1 n)
    (a : Nat) (c : Cell) (ha : n ≤ a) : ExtendsFrom h (h1.write a c) n :=
  ⟨by rw [Heap.size_write]; exact hx.1,
   fun b hb => by
     rw [Heap.read_write_ne h1 a b c (by omega)]
     exact hx.2 b hb⟩

theorem deepcopyParams_spec : ∀ (p : ParamsD) (h : Heap),
    ExtendsFrom h (deepcopyParams h p).1 h.size
    ∧ FreshFrom (deepcopyParams h p).2 h.size := by
  intro p
  induction p with
  | nil =>
    intro h
    exact ⟨extendsFrom_refl h _ le_rfl, by simp [deepcopyParams, FreshFrom]⟩
  | cons kv rest ih =>
    intro h
    obtain ⟨ihx, ihf⟩ := ih (h.alloc (h.read kv.2)).1
    have hsz : h.size ≤ (h.alloc (h.read kv.2)).1.size := by
      rw [Heap.size_alloc]; omega
    constructor
    · show ExtendsFrom h (deepcopyParams (h.alloc (h.read kv.2)).1 rest).1 h.size
      exact extendsFrom_trans (extendsFrom_alloc h _ h.size le_rfl)
        (extendsFrom_mono ihx hsz)
    · intro kv2 hkv2
      rcases List.mem_cons.mp hkv2 with heq | h2
      · rw [heq]
        show h.size ≤ (h.alloc (h.read kv.2)).2
        simp [Heap.alloc, Heap.size]
      · exact le_trans hsz (ihf kv2 h2)

theorem extendKeyM_spec {h0 h : Heap} {p : ParamsD} {n : Nat} (k : String) (vs : List PVal)
    (hx : ExtendsFrom h0 h n) (hf : FreshFrom p n) :
    ExtendsFrom h0 (extendKeyM h p k vs).1 n ∧ FreshFrom (extendKeyM h p k vs).2 n := by
  unfold extendKeyM getOrCreate
  cases hfind : p.find? (fun kv => kv.1 == k) with
  | some kv =>
    have hmem : kv ∈ p := List.mem_of_find?_eq_some hfind
    have haddr : n ≤ kv.2 := hf kv hmem
    exact ⟨extendsFrom_write hx kv.2 _ haddr, hf⟩
  | none =>
    have hkn : n ≤ h.size := hx.1
    have haddr : n ≤ (h.alloc []).2 := by
      show n ≤ h.cells.length
      exact hkn
    refine ⟨?_, ?_⟩
    · exact extendsFrom_write (extendsFrom_trans hx (extendsFrom_alloc h [] n hkn)) _ _ haddr
    · intro kv2 hkv2
      rcases List.mem_append.mp hkv2 with h2 | h2
      · exact hf kv2 h2
      · rw [List.mem_singleton.mp h2]
        exact haddr

theorem setKeyM_spec {h0 h : Heap} {p : ParamsD} {n : Nat} (k : String) (vs : List PVal)
    (hx : ExtendsFrom h0 h n) (hf : FreshFrom p n) :
    ExtendsFrom h0 (setKeyM h p k vs).1 n ∧ FreshFrom (setKeyM h p k vs).2 n := by
  unfold setKeyM
  have hkn : n ≤ h.size := hx.1
  have haddr : n ≤ (h.alloc vs).2 := by
    show n ≤ h.cells.length
    exact hkn
  have hext : ExtendsFrom h0 (h.alloc vs).1 n :=
    extendsFrom_trans hx (extendsFrom_alloc h vs n hkn)
  by_cases hany : p.any (fun kv => kv.1 == k)
  · rw [if_pos hany]
    refine ⟨hext, ?_⟩
    intro kv2 hkv2
    obtain ⟨kv3, hkv3, heq⟩ := List.mem_map.mp hkv2
    by_cases hk : kv3.1 == k
    · rw [if_pos hk] at heq
      rw [← heq]
      exact haddr
    · rw [if_neg hk] at heq
      rw [← heq]
      exact hf kv3 hkv3
  · rw [if_neg hany]
    refine ⟨hext, ?_⟩
    intro kv2 hkv2
    rcases List.mem_append.mp hkv2 with h2 | h2
    · exact hf kv2 h2
    · rw [List.mem_singleton.mp h2]
      exact haddr

theorem cloneKwargsLoop_spec (ov : Bool) :
    ∀ (kwargs : List (String × List PVal)) (h0 h : Heap) (p : ParamsD) (n : Nat),
      ExtendsFrom h0 h n → FreshFrom p n →
      ExtendsFrom h0 (cloneKwargsLoop ov h p kwargs).1 n
      ∧ FreshFrom (cloneKwargsLoop ov h p kwargs).2 n := by
  intro kwargs
  induction kwargs with
  | nil =>
    intro h0 h p n hx hf
    exact ⟨hx, hf⟩
  | cons kv rest ih =>
    intro h0 h p n hx hf
    cases ov with
    | true =>
      obtain ⟨sx, sf⟩ := setKeyM_spec kv.1 kv.2 hx hf
      exact ih h0 _ _ n sx sf
    | false =>
      obtain ⟨sx, sf⟩ := extendKeyM_spec kv.1 kv.2 hx hf
      exact ih h0 _ _ n sx sf

theorem cloneM_spec (h : Heap) (s : MSearchSet) (ov : Bool)
    (kwargs : List (String × List PVal)) (hv : ValidP h s.params) :
    PreservesAndFresh h s (cloneM h s ov kwargs) := by
  obtain ⟨dx, df⟩ := deepcopyParams_spec s.params h
  obtain ⟨lx, lf⟩ := cloneKwargsLoop_spec ov kwargs h _ _ h.size dx df
  constructor
  · apply List.map_congr_left
    intro kv hkv
    have hr : (cloneM h s ov kwargs).1.read kv.2 = h.read kv.2 :=
      lx.2 kv.2 (hv kv hkv)
    rw [hr]
  · intro kv hkv kv2 hkv2
    have h1 : kv.2 < h.size := hv kv hkv
    have h2 : h.size ≤ kv2.2 := lf kv2 hkv2
    omega

/-- C2: every builder method (search, sort, limit, elements, include,
revinclude, has) returns a new SearchSet built through clone(), which
deep-copies the params multimap before any modification: the original
SearchSet reads the same params afterwards and shares no list object
(no aliasing) with the derived SearchSet. -/
theorem C2_builder_isolation (h : Heap) (s : MSearchSet) (hv : ValidP h s.params) :
    (∀ kwargs out, searchM h s kwargs = .ok out → PreservesAndFresh h s out)
    ∧ (∀ keys, PreservesAndFresh h s (sortM h s keys))
    ∧ (∀ n, PreservesAndFresh h s (limitM h s n))
    ∧ (∀ attrs exclude, PreservesAndFresh h s (elementsM h s attrs exclude))
    ∧ (∀ rt attr target r i rev out, includeM h s rt attr target r i rev = .ok out →
        PreservesAndFresh h s out)
    ∧ (∀ rt attr target r i out, revincludeM h s rt attr target r i = .ok out →
        PreservesAndFresh h s out)
    ∧ (∀ args kwargs out, hasM h s args kwargs = .ok out → PreservesAndFresh h s out) := by
  have hinc : ∀ rt attr target r i rev out, includeM h s rt attr target r i rev = .ok out →
      PreservesAndFresh h s out := by
    intro rt attr target r i rev out hout
    unfold includeM at hout
    by_cases hrt : rt = "*"
    · rw [if_pos hrt] at hout
      cases hout
      exact cloneM_spec h s false _ hv
    · rw [if_neg hrt] at hout
      cases attr with
      | none => exact absurd hout (by simp)
      | some a =>
        cases hout
        exact cloneM_spec h s false _ hv
  refine ⟨?_, ?_, ?_, ?_, hinc, ?_, ?_⟩
  · intro kwargs out hout
    unfold searchM at hout
    cases hsq : sqNew kwargs with
    | error e => rw [hsq] at hout; exact absurd hout (by simp)
    | ok m =>
      rw [hsq] at hout
      cases hout
      exact cloneM_spec h s false m hv
  · intro keys
    exact cloneM_spec h s true _ hv
  · intro n
    exact cloneM_spec h s true _ hv
  · intro attrs exclude
    exact cloneM_spec h s true _ hv
  · intro rt attr target r i out hout
    exact hinc rt attr target r i true out hout
  · intro args kwargs out hout
    unfold hasM at hout
    by_cases hargs : args.length % 2 ≠ 0
    · rw [if_pos hargs] at hout
      exact absurd hout (by simp)
    · rw [if_neg hargs] at hout
      cases hsq : sqNew kwargs with
      | error e => rw [hsq] at hout; exact absurd hout (by simp)
      | ok m =>
        rw [hsq] at hout
        cases hout
        exact cloneM_spec h s false _ hv

theorem C2_builder_isolation_witness :
    ValidP heapW ssW.params
    ∧ PreservesAndFresh heapW ssW (sortM heapW ssW ["name"])
    ∧ PreservesAndFresh heapW ssW (limitM heapW ssW 5)
    ∧ sqNew [("active", [PVal.b true])] = .ok [("active", [PVal.s "true"])]
    ∧ PreservesAndFresh heapW ssW
        (cloneM heapW ssW false [("active", [PVal.s "true"])]) := by
  have hv : ValidP heapW ssW.params := by
    intro kv hkv
    rcases List.mem_singleton.mp hkv with rfl
    decide
  have hc := C2_builder_isolation heapW ssW hv
  have hsq : sqNew [("active", [PVal.b true])] = .ok [("active", [PVal.s "true"])] := by
    decide
  refine ⟨hv, hc.2.1 ["name"], hc.2.2.1 5, hsq, ?_⟩
  apply hc.1 [("active", [PVal.b true])]
  unfold searchM
  rw [hsq]
